import Mathlib

/-!
Verification of the community context builder of
`graphrag/query/context_builder/community_context.py`.

The builder prepares a token-budgeted context table from community reports:
it computes per-community weights from entities, filters reports by rank,
optionally shuffles them, accumulates delimiter-joined rows into batches
bounded by a token budget, re-sorts each closed batch by weight and rank,
and renders every batch as delimited text together with a structured table.

Python machine-level details are embedded as follows: dictionaries are
insertion-ordered association lists, Python truthiness is made explicit
(`None`, `0`, `""`, empty list / dict are falsy), numbers are `Int` / `Rat`,
and a fallible computation (one that can raise) returns an `Option`, with
`none` for an uncaught exception.  The injected collaborators (the token
counter `num_tokens`, the seeded `random.shuffle` permutation and the
`float` parser used by `astype(float)`) are function parameters.
-/

namespace GraphRag

/-- Attribute values stored in a report's attribute mapping: a string or a
number (Python ints and floats are both modelled by `Rat`). -/
inductive AttrValue where
  | str (s : String)
  | num (q : Rat)
deriving DecidableEq

/-- Python `str(value)` on an attribute value. -/
def attrToString : AttrValue → String
  | .str s => s
  | .num q => toString q

/-- First-match lookup in an insertion-ordered association list
(Python `dict` access / `dict.get`). -/
def dictGet? {α : Type} (d : List (String × α)) (k : String) : Option α :=
  match d with
  | [] => none
  | p :: rest => if p.1 = k then some p.2 else dictGet? rest k

/-- Lookup with a default value (Python `dict.get(k, v)`). -/
def dictGetD {α : Type} (d : List (String × α)) (k : String) (v : α) : α :=
  (dictGet? d k).getD v

/-- Python `k in dict`. -/
def dictMem {α : Type} (d : List (String × α)) (k : String) : Bool :=
  (dictGet? d k).isSome

/-- Python `dict[k] = v`: update the existing entry in place, otherwise
append a new entry at the end (insertion order). -/
def dictInsert {α : Type} (d : List (String × α)) (k : String) (v : α) :
    List (String × α) :=
  match d with
  | [] => [(k, v)]
  | p :: rest => if p.1 = k then (k, v) :: rest else p :: dictInsert rest k v

/-- Python `list(dict.keys())`. -/
def dictKeys {α : Type} (d : List (String × α)) : List String :=
  d.map Prod.fst

/-- Python `len(set(l))`: the number of distinct elements of a list. -/
def numDistinct (l : List String) : Nat :=
  l.dedup.length

/-- Modelled from the spec: `Entity` (the `graphrag.model` dataclasses are
outside `src/`): an extracted graph node carrying the community ids it
belongs to and the ids of the source text fragments mentioning it.  An
absent (`None`) id list and an empty one behave identically under the
Python truthiness test the source applies, so both are the empty list. -/
structure Entity where
  community_ids : List String
  text_unit_ids : List String
deriving DecidableEq

/-- Modelled from the spec: `CommunityReport` (the `graphrag.model`
dataclasses are outside `src/`).  `rank` may be absent; the spec allows an
int or float score and integers suffice for every property below.
`attributes` is the report's mutable attribute mapping (`None` when never
set). -/
structure CommunityReport where
  short_id : String
  title : String
  community_id : String
  summary : String
  full_content : String
  rank : Option Int
  attributes : Option (List (String × AttrValue))
deriving DecidableEq

/-- The dictionary built by the first loop of `_compute_community_weights`
(lines 206-214): for each entity with a truthy `community_ids`, every
listed community's entry is extended with the entity's `text_unit_ids`. -/
def community_text_units (entities : List Entity) :
    List (String × List String) :=
  entities.foldl
    (fun units e =>
      if e.community_ids.isEmpty then units
      else
        e.community_ids.foldl
          (fun u cid => dictInsert u cid (dictGetD u cid [] ++ e.text_unit_ids))
          units)
    []

/-- Lines 218-223 of the source, for one report: ensure the attribute
mapping exists (Python replaces a falsy `None` / empty dict by a fresh
dict) and set the weight attribute to `len(set(...))` of the community's
collected text unit ids. -/
def assign_weight (units : List (String × List String)) (key : String)
    (r : CommunityReport) : CommunityReport :=
  let attrs : List (String × AttrValue) :=
    match r.attributes with
    | none => []
    | some a => if a.isEmpty then [] else a
  { r with
    attributes :=
      some (dictInsert attrs key
        (.num ((numDistinct (dictGetD units r.community_id [])) : Rat))) }

/-- The raw weight stored for a report after `assign_weight` (the Python
code reads `report.attributes[weight_attribute]`, always a number there;
the string and missing cases are unreachable on the code paths used). -/
def getNum (a : List (String × AttrValue)) (key : String) : Rat :=
  match dictGet? a key with
  | some (.num q) => q
  | some (.str _) => 0
  | none => 0

/-- Python `max` on a nonempty list. -/
def maxList : List Rat → Rat
  | [] => 0
  | x :: xs => xs.foldl max x

/-- `_compute_community_weights` (lines 196-239).  Builds the community →
text-unit-id dictionary, writes each report's raw weight, and, when
`normalize` is set, divides every weight by the maximum raw weight.
Python `max([])` raises `ValueError` and dividing the integer weights by a
zero maximum raises `ZeroDivisionError`; both faults are `none`. -/
def compute_community_weights (community_reports : List CommunityReport)
    (entities : List Entity) (weight_attribute : String)
    (normalize : Bool) : Option (List CommunityReport) :=
  let units := community_text_units entities
  let reports := community_reports.map (assign_weight units weight_attribute)
  if normalize then
    let all_weights := reports.filterMap
      (fun r =>
        match r.attributes with
        | none => none
        | some a => if a.isEmpty then none else some (getNum a weight_attribute))
    if all_weights.isEmpty then none
    else
      let max_weight := maxList all_weights
      if max_weight = 0 then none
      else
        some (reports.map
          (fun r =>
            match r.attributes with
            | none => r
            | some a =>
              if a.isEmpty then r
              else
                { r with
                  attributes :=
                    some (dictInsert a weight_attribute
                      (.num (getNum a weight_attribute / max_weight))) }))
  else some reports

/-- Structured table (`pandas.DataFrame` built from row lists): a header of
column names and the data rows, each a list of cell strings. -/
structure DF where
  header : List String
  rows : List (List String)
deriving DecidableEq

/-- `pd.DataFrame()`, the empty table produced for a batch that holds only
the header. -/
def emptyDF : DF := { header := [], rows := [] }

/-- Python `delim.join(parts)`. -/
def pyJoin (delim : String) : List String → String
  | [] => ""
  | [a] => a
  | a :: b :: rest => a ++ delim ++ pyJoin delim (b :: rest)

/-- `DataFrame.to_csv(index=False, sep=delim)`: the header row followed by
the data rows, each line terminated by a newline; the empty table renders
as a single newline.  Field quoting is not modelled: no cell or column
name used in the concrete runs below contains the delimiter, a quote or a
newline, and in the general theorems only the first character of the
output matters, which quoting does not change for the fixed first column
name `id`. -/
def renderDF (delim : String) (df : DF) : String :=
  pyJoin delim df.header ++ "\n" ++
    String.join (df.rows.map (fun r => pyJoin delim r ++ "\n"))

/-- Stable insertion of `a` into `l` before the first element `b` with
`le a b = true` (ties therefore keep earlier elements first). -/
def ordIns {α : Type} (le : α → α → Bool) (a : α) : List α → List α
  | [] => [a]
  | b :: bs => if le a b then a :: b :: bs else b :: ordIns le a bs

/-- Stable insertion sort for the boolean "may precede" relation `le`. -/
def isort {α : Type} (le : α → α → Bool) : List α → List α
  | [] => []
  | a :: as => ordIns le a (isort le as)

/-- Truthiness of an optional string argument (Python `if weight_column:`
is false for `None` and for the empty string). -/
def pyStrTruthy : Option String → Bool
  | none => false
  | some s => !(s == "")

/-- The sort key of one row in one column: the cell under the column name,
parsed as a float (`astype(float)`), where `parse` is the injected float
parser.  A missing column would raise `KeyError` in pandas; it is
unreachable from the builder, which only passes columns of the header. -/
def colKey (parse : String → Rat) (header : List String) (c : String)
    (row : List String) : Rat :=
  parse (row.getD (header.indexOf c) "")

/-- Row `a` may precede row `b` when sorting descending on a single key
column. -/
def descLe1 (parse : String → Rat) (header : List String) (c : String)
    (a b : List String) : Bool :=
  decide (colKey parse header c b ≤ colKey parse header c a)

/-- Row `a` may precede row `b` when sorting descending lexicographically
on two key columns. -/
def descLe2 (parse : String → Rat) (header : List String) (c₁ c₂ : String)
    (a b : List String) : Bool :=
  decide (colKey parse header c₁ b < colKey parse header c₁ a) ||
    (decide (colKey parse header c₁ b = colKey parse header c₁ a) &&
      decide (colKey parse header c₂ b ≤ colKey parse header c₂ a))

/-- `_rank_report_context` (lines 242-257): sort the rows descending by
the weight column, then the rank column, when each is (truthily) given;
with no sort column the table is returned unchanged.

`DataFrame.sort_values(by=cols, ascending=False)` is embedded following
the pandas implementation: with two or more sort columns pandas uses
`lexsort_indexer` (a stable lexicographic sort, descending obtained by
inverting the key codes, so fully tied rows keep their original order);
with exactly one sort column it uses `nargsort`, an ascending argsort
whose result is then reversed (`indexer[::-1]`), so tied rows come out in
reversed order.  The in-place `astype(float)` column conversion is
embedded by parsing the cells during comparison; it does not change the
row ordering, which is the only aspect of the table the theorems below
consume. -/
def rank_report_context (parse : String → Rat) (report_df : DF)
    (weight_column rank_column : Option String) : DF :=
  let rank_attributes : List String :=
    (if pyStrTruthy weight_column then [weight_column.getD ""] else []) ++
      (if pyStrTruthy rank_column then [rank_column.getD ""] else [])
  match rank_attributes with
  | [] => report_df
  | [c] =>
    { report_df with
      rows := (isort (fun a b =>
        decide (colKey parse report_df.header c a ≤
          colKey parse report_df.header c b)) report_df.rows).reverse }
  | c₁ :: c₂ :: _ =>
    { report_df with
      rows := isort (descLe2 parse report_df.header c₁ c₂) report_df.rows }

/-- `_convert_report_context_to_df` (lines 260-275): build the table from
the accumulated records and re-sort it. -/
def convert_report_context_to_df (parse : String → Rat)
    (context_records : List (List String)) (header : List String)
    (weight_column rank_column : Option String) : DF :=
  rank_report_context parse { header := header, rows := context_records }
    weight_column rank_column

/-- `pd.concat(all_records, ignore_index=True)`: all rows concatenated;
the column set is the one shared by every nonempty member table. -/
def concatDFs (dfs : List DF) : DF :=
  { header := (dfs.find? (fun df => !df.header.isEmpty)).elim [] DF.header
    rows := (dfs.map DF.rows).flatten }

/-- The keyword arguments of `build_community_context` together with its
injected collaborators: `tc` is `num_tokens` with the chosen
`token_encoder`, `shuffle` the seeded `random.shuffle` permutation (the
seeding by `random_state` on line 76 is absorbed into the function), and
`parse` the `float` parser used by `astype(float)`. -/
structure Params where
  tc : String → Nat
  shuffle : List CommunityReport → List CommunityReport
  parse : String → Rat
  use_community_summary : Bool
  column_delimiter : String
  shuffle_data : Bool
  include_community_rank : Bool
  min_community_rank : Int
  community_rank_name : String
  include_community_weight : Bool
  community_weight_name : String
  normalize_community_weight : Bool
  max_tokens : Nat
  single_batch : Bool
  context_name : String

/-- Python truthiness of the optional `entities` argument (`None` and the
empty list are falsy). -/
def entitiesTruthy : Option (List Entity) → Bool
  | none => false
  | some [] => false
  | some (_ :: _) => true

/-- Lines 49-64: compute the community weights only when entities are
truthy, there are reports, weights are requested, and the first report
does not already carry the weight attribute. -/
def weight_step (p : Params) (entities : Option (List Entity))
    (community_reports : List CommunityReport) :
    Option (List CommunityReport) :=
  match community_reports with
  | [] => some []
  | r :: rs =>
    let guard_recompute : Bool :=
      entitiesTruthy entities && p.include_community_weight &&
        (match r.attributes with
         | none => true
         | some a => !dictMem a p.community_weight_name)
    if guard_recompute then
      compute_community_weights (r :: rs) ((entities).getD [])
        p.community_weight_name p.normalize_community_weight
    else some (r :: rs)

/-- Python truthiness of `report.rank and report.rank >= min` (lines
67-71): an absent rank and a zero rank are both falsy, so such reports
are dropped before the comparison happens. -/
def rank_keeps (min_rank : Int) (rank : Option Int) : Bool :=
  match rank with
  | none => false
  | some v => if v = 0 then false else decide (v ≥ min_rank)

/-- The report filter (the list comprehension of lines 67-71). -/
def select_reports (min_rank : Int) (reports : List CommunityReport) :
    List CommunityReport :=
  reports.filter (fun r => rank_keeps min_rank r.rank)

/-- The attribute columns derived from the first surviving report (lines
85-92): its attribute keys, minus `id` / `title`, minus the weight column
when weights are not requested. -/
def first_attribute_cols (p : Params) (sel : List CommunityReport) :
    List String :=
  let base : List String :=
    match sel with
    | [] => []
    | r :: _ =>
      match r.attributes with
      | none => []
      | some a => if a.isEmpty then [] else dictKeys a
  let cols := base.filter (fun c => !(c == "id" || c == "title"))
  if p.include_community_weight then cols
  else cols.filter (fun c => !(c == p.community_weight_name))

/-- The full column header of a batch (lines 84-96):
`id, title, attribute columns, summary|content, [rank]`. -/
def table_header (p : Params) (attribute_cols : List String) : List String :=
  ["id", "title"] ++ attribute_cols ++
    [if p.use_community_summary then "summary" else "content"] ++
    (if p.include_community_rank then [p.community_rank_name] else [])

/-- Python `str(report.rank)` (line 121). -/
def rankToString : Option Int → String
  | none => "None"
  | some v => toString v

/-- One rendered report row (lines 108-121): id, title, the stringified
attribute values in column order (a falsy attribute mapping gives empty
strings, a missing attribute the empty string), the body text, and the
rank when requested. -/
def report_row (p : Params) (attribute_cols : List String)
    (r : CommunityReport) : List String :=
  [r.short_id, r.title] ++
    attribute_cols.map (fun field =>
      match r.attributes with
      | none => ""
      | some a =>
        if a.isEmpty then ""
        else attrToString (dictGetD a field (.str ""))) ++
    [if p.use_community_summary then r.summary else r.full_content] ++
    (if p.include_community_rank then [rankToString r.rank] else [])

/-- The banner line `-----<ContextName>-----` with its newline (line 81). -/
def bannerText (p : Params) : String :=
  "-----" ++ p.context_name ++ "-----" ++ "\n"

/-- The delimited header line with its newline (line 99). -/
def headerLine (p : Params) (header : List String) : String :=
  pyJoin p.column_delimiter header ++ "\n"

/-- The raw text a fresh batch starts from: banner plus header line
(lines 81-99 and 158-163). -/
def freshText (p : Params) (header : List String) : String :=
  bannerText p ++ headerLine p header

/-- The delimited text of one report row with its newline (line 124). -/
def rowText (p : Params) (row : List String) : String :=
  pyJoin p.column_delimiter row ++ "\n"

/-- The weight column argument passed to the table conversion (lines
138-140): the weight name when entities are truthy and weights are
requested, otherwise `None`. -/
def weight_col (p : Params) (entities : Option (List Entity)) :
    Option String :=
  if entitiesTruthy entities && p.include_community_weight
  then some p.community_weight_name else none

/-- The rank column argument passed to the table conversion (line 141). -/
def rank_col (p : Params) : Option String :=
  if p.include_community_rank then some p.community_rank_name else none

/-- The mutable state of the accumulation loop (lines 100-103). -/
structure LoopState where
  all_context_text : List String
  all_context_records : List DF
  current_context_text : String
  current_tokens : Nat
  current_context_records : List (List String)
deriving DecidableEq

/-- The state prepared before the loop (lines 81-103). -/
def initState (p : Params) (header : List String) : LoopState :=
  { all_context_text := []
    all_context_records := []
    current_context_text := freshText p header
    current_tokens := p.tc (freshText p header)
    current_context_records := [header] }

/-- Closing the current batch (lines 134-148): sort and render the
accumulated records, or produce the empty table when only the header is
present. -/
def close_batch (p : Params) (entities : Option (List Entity))
    (st : LoopState) : DF :=
  if st.current_context_records.length > 1 then
    convert_report_context_to_df p.parse
      (st.current_context_records.drop 1)
      (st.current_context_records.headD [])
      (weight_col p entities) (rank_col p)
  else emptyDF

/-- The outcome of the accumulation loop: an early single-batch return
(line 152) or the final state after all reports were consumed. -/
inductive LoopOut where
  | early (text : String) (df : DF)
  | done (st : LoopState)
deriving DecidableEq

/-- The accumulation loop over the selected reports (lines 106-170).  On
overflow the current batch is closed; under `single_batch` the function
returns it immediately, otherwise a fresh batch is started and the loop
moves on to the next report — the report that triggered the overflow is
not carried into the new batch. -/
def batchLoop (p : Params) (entities : Option (List Entity))
    (attribute_cols : List String) (header : List String) :
    List CommunityReport → LoopState → LoopOut
  | [], st => .done st
  | r :: rs, st =>
    let new_context := report_row p attribute_cols r
    let new_tokens := p.tc (rowText p new_context)
    if st.current_tokens + new_tokens > p.max_tokens then
      let record_df := close_batch p entities st
      let closed_text := renderDF p.column_delimiter record_df
      if p.single_batch then .early closed_text record_df
      else
        batchLoop p entities attribute_cols header rs
          { all_context_text := st.all_context_text ++ [closed_text]
            all_context_records := st.all_context_records ++ [record_df]
            current_context_text := freshText p header
            current_tokens := p.tc (freshText p header)
            current_context_records := [header] }
    else
      batchLoop p entities attribute_cols header rs
        { st with
          current_context_text := st.current_context_text ++ rowText p new_context
          current_tokens := st.current_tokens + new_tokens
          current_context_records := st.current_context_records ++ [new_context] }

/-- The trailing-batch block after the loop (lines 175-189): when the raw
current text is not among the already rendered batch texts, close the
current batch once more and append its rendering. -/
def finalize (p : Params) (entities : Option (List Entity))
    (st : LoopState) : List String × List DF :=
  if st.current_context_text ∈ st.all_context_text then
    (st.all_context_text, st.all_context_records)
  else
    let record_df := close_batch p entities st
    (st.all_context_text ++ [renderDF p.column_delimiter record_df],
      st.all_context_records ++ [record_df])

/-- The closed batches the accumulator produces for a selected report
list: the sole early batch under `single_batch`, otherwise the loop's
batches together with the trailing one `finalize` may add. -/
def outBatches (p : Params) (entities : Option (List Entity))
    (attribute_cols : List String) (header : List String)
    (selected : List CommunityReport) : List DF :=
  match batchLoop p entities attribute_cols header selected
      (initState p header) with
  | .early _ df => [df]
  | .done st => (finalize p entities st).2

/-- One character of Python `str.lower()`; every context name used in the
development is ASCII, where lowering maps `A`-`Z` to `a`-`z`. -/
def lowerChar (c : Char) : Char :=
  if 'A' ≤ c ∧ c ≤ 'Z' then Char.ofNat (c.toNat + 32) else c

/-- Python `context_name.lower()` (lines 152 and 192). -/
def pyLower (s : String) : String := ⟨s.data.map lowerChar⟩

/-- The context text member of the result: Python returns either a single
string or a list of per-batch strings. -/
inductive ContextText where
  | single (s : String)
  | multiple (l : List String)
deriving DecidableEq

/-- `build_community_context` (lines 19-193): weight computation, rank
filter, shuffle, header construction, batch accumulation and final
assembly.  The result is `none` when the weight computation raises. -/
def build_community_context (p : Params)
    (community_reports : List CommunityReport)
    (entities : Option (List Entity)) :
    Option (ContextText × List (String × DF)) :=
  match weight_step p entities community_reports with
  | none => none
  | some reports =>
    match select_reports p.min_community_rank reports with
    | [] => some (.multiple [], [])
    | r :: rs =>
      let selected :=
        if p.shuffle_data then p.shuffle (r :: rs) else r :: rs
      let attribute_cols := first_attribute_cols p selected
      let header := table_header p attribute_cols
      match batchLoop p entities attribute_cols header selected
          (initState p header) with
      | .early text df =>
        some (.single text, [(pyLower p.context_name, df)])
      | .done st =>
        let out := finalize p entities st
        some (.multiple out.1,
          [(pyLower p.context_name, concatDFs out.2)])

/-! Concrete fixtures used by the concrete runs below.  The token counter
is the string length, the shuffle is the identity permutation and the
float parser reads a decimal natural number. -/

/-- A concrete parameter set: summary mode, `|` delimiter, no shuffling,
no rank column, weight column named `w`, budget 41 tokens (counted as
characters), multi-batch mode, context name `Reports`. -/
def pFix : Params :=
  { tc := String.length
    shuffle := id
    parse := fun _ => 0
    use_community_summary := true
    column_delimiter := "|"
    shuffle_data := false
    include_community_rank := false
    min_community_rank := 0
    community_rank_name := "rank"
    include_community_weight := true
    community_weight_name := "w"
    normalize_community_weight := true
    max_tokens := 41
    single_batch := false
    context_name := "Reports" }

/-- A report of rank 5 with no attributes. -/
def repA : CommunityReport := ⟨"1", "a", "c1", "s", "f", some 5, none⟩

/-- A second report of rank 5 with no attributes. -/
def repB : CommunityReport := ⟨"2", "b", "c1", "s", "f", some 5, none⟩

/-- A report whose rank is absent. -/
def repNoRank : CommunityReport := ⟨"1", "a", "c1", "s", "f", none, none⟩

/-- C1: with `single_batch = false` the code does not carry an overflowing
report into the new batch: at the concrete input both reports survive the
filter, the first fills the batch exactly (35 header tokens + 6 row
tokens = 41 = budget), the second overflows (47 > 41) and is dropped, so
the concatenated structured table holds one row instead of two; and a
report whose row alone exceeds the budget (second run, budget 10) is
never emitted as its own batch — the output is two empty tables. -/
theorem C1_boundary_report_dropped :
    select_reports pFix.min_community_rank [repA, repB] = [repA, repB] ∧
    build_community_context pFix [repA, repB] none =
      some (.multiple ["id|title|summary\n1|a|s\n", "\n"],
        [("reports", ⟨["id", "title", "summary"], [["1", "a", "s"]]⟩)]) ∧
    build_community_context { pFix with max_tokens := 10 } [repA] none =
      some (.multiple ["\n", "\n"], [("reports", ⟨[], []⟩)]) := by
  refine ⟨by decide, by decide, by decide⟩

/-- C2: when every raw weight is 0 — here the single entity lists no
community, so no report's community is referenced — `max(all_weights)` is
0 and the division `weight / max_weight` of the integer weights raises
`ZeroDivisionError` instead of leaving the weights at 0 as the claim
requires. -/
theorem C2_all_zero_weights_fault :
    compute_community_weights [⟨"1", "a", "c1", "s", "f", some 5, none⟩]
      [⟨[], ["t"]⟩] "w" true = none := by decide

/-- C3 counterexample: with `single_batch = true`, a nonempty filtered
report set and a budget that is never exceeded, the builder falls through
to the final multi-batch return, and the context text member is a
one-element list of strings, not a single string. -/
theorem C3_counterexample :
    select_reports pFix.min_community_rank [repA] = [repA] ∧
    build_community_context { pFix with single_batch := true, max_tokens := 100 }
      [repA] none =
      some (.multiple ["id|title|summary\n1|a|s\n"],
        [("reports", ⟨["id", "title", "summary"], [["1", "a", "s"]]⟩)]) := by
  refine ⟨by decide, by decide⟩

/-- C4 counterexample: a report with present rank 0 and
`min_community_rank = 0` satisfies `rank >= min_community_rank`, yet the
filter drops it, because Python evaluates `report.rank and ...` and the
number 0 is falsy. -/
theorem C4_counterexample :
    (⟨"1", "a", "c1", "s", "f", some 0, none⟩ : CommunityReport).rank = some 0 ∧
    ((0 : Int) ≥ 0) = True ∧
    select_reports 0 [⟨"1", "a", "c1", "s", "f", some 0, none⟩] = [] := by
  refine ⟨rfl, by decide, by decide⟩

/-- C4 as amended: the filter keeps a report iff its rank is present,
nonzero, and at least `min_community_rank`; reports with absent rank are
always excluded, and so are reports with present rank 0, whatever the
threshold. -/
theorem C4_amended (mr : Int) (reports : List CommunityReport)
    (r : CommunityReport) :
    r ∈ select_reports mr reports ↔
      r ∈ reports ∧ ∃ v : Int, r.rank = some v ∧ v ≠ 0 ∧ mr ≤ v := by
  rw [select_reports, List.mem_filter]
  cases hr : r.rank with
  | none => simp [rank_keeps, hr]
  | some v =>
    by_cases hv : v = 0
    · simp [rank_keeps, hr, hv]
    · simp [rank_keeps, hr, hv, ge_iff_le]

/-- C7: when the first report's attribute mapping already carries the
configured weight key, the builder's weight-injection step recomputes
nothing and returns every report unchanged. -/
theorem C7_weight_injection_idempotent (p : Params)
    (entities : Option (List Entity)) (r : CommunityReport)
    (rs : List CommunityReport) (a : List (String × AttrValue))
    (ha : r.attributes = some a)
    (hmem : dictMem a p.community_weight_name = true) :
    weight_step p entities (r :: rs) = some (r :: rs) := by
  simp [weight_step, ha, hmem]

/-- C7 witness: a concrete report already carrying the weight key `w`
passes through the weight step unchanged. -/
theorem C7_weight_injection_idempotent_witness :
    (⟨"1", "a", "c1", "s", "f", some 5, some [("w", .num 1)]⟩ :
        CommunityReport).attributes = some [("w", .num 1)] ∧
    dictMem [("w", AttrValue.num 1)] pFix.community_weight_name = true ∧
    weight_step pFix (some [⟨["c1"], ["t1"]⟩])
      [⟨"1", "a", "c1", "s", "f", some 5, some [("w", .num 1)]⟩] =
      some [⟨"1", "a", "c1", "s", "f", some 5, some [("w", .num 1)]⟩] :=
  ⟨rfl, rfl,
    C7_weight_injection_idempotent pFix (some [⟨["c1"], ["t1"]⟩]) _ []
      [("w", .num 1)] rfl rfl⟩

/-- C9 counterexample: the single report has no rank, so the filtered set
is empty, but the builder does not reach the empty-context return: the
weight computation runs first (the entity list is truthy) and raises
`ZeroDivisionError`, because the sole entity references no community and
every raw weight is 0. -/
theorem C9_counterexample :
    select_reports pFix.min_community_rank [repNoRank] = [] ∧
    build_community_context pFix [repNoRank] (some [⟨[], ["t"]⟩]) = none := by
  refine ⟨by decide, by decide⟩

/-- C9 as amended: whenever the weight-injection step completes without
raising (it can only raise in the normalize-by-zero-maximum case) and the
filtered report set is empty, the builder returns the empty context pair
— an empty list and an empty mapping. -/
theorem C9_amended (p : Params) (reports reports' : List CommunityReport)
    (entities : Option (List Entity))
    (hw : weight_step p entities reports = some reports')
    (hsel : select_reports p.min_community_rank reports' = []) :
    build_community_context p reports entities = some (.multiple [], []) := by
  simp [build_community_context, hw, hsel]

/-! General facts about the stable insertion sort embedding
`DataFrame.sort_values`. -/

/-- Inserting an element permutes: `ordIns` only places `a` somewhere. -/
theorem ordIns_perm {α : Type} (le : α → α → Bool) (a : α) (l : List α) :
    (ordIns le a l).Perm (a :: l) := by
  induction l with
  | nil => exact .refl _
  | cons b bs ih =>
    rw [ordIns]
    split
    · exact .refl _
    · exact (ih.cons b).trans (List.Perm.swap a b bs)

/-- Insertion sort permutes its input. -/
theorem isort_perm {α : Type} (le : α → α → Bool) (l : List α) :
    (isort le l).Perm l := by
  induction l with
  | nil => exact .refl _
  | cons a as ih =>
    exact (ordIns_perm le a (isort le as)).trans (ih.cons a)

/-- Inserting into a `le`-sorted list keeps it sorted, for a total and
transitive boolean relation. -/
theorem pairwise_ordIns {α : Type} (le : α → α → Bool)
    (htot : ∀ a b, le a b = true ∨ le b a = true)
    (htrans : ∀ a b c, le a b = true → le b c = true → le a c = true)
    (a : α) (l : List α) (h : l.Pairwise (fun x y => le x y = true)) :
    (ordIns le a l).Pairwise (fun x y => le x y = true) := by
  induction l with
  | nil => simp [ordIns]
  | cons b bs ih =>
    rcases List.pairwise_cons.1 h with ⟨hb, hbs⟩
    rw [ordIns]
    by_cases hab : le a b = true
    · rw [if_pos hab]
      refine List.pairwise_cons.2 ⟨?_, h⟩
      intro c hc
      rcases List.mem_cons.1 hc with hcb | hcbs
      · exact hcb ▸ hab
      · exact htrans a b c hab (hb c hcbs)
    · rw [if_neg hab]
      refine List.pairwise_cons.2 ⟨?_, ih hbs⟩
      intro c hc
      rcases List.mem_cons.1 ((ordIns_perm le a bs).mem_iff.1 hc) with hca | hcbs
      · rw [hca]
        rcases htot a b with h1 | h1
        · exact absurd h1 hab
        · exact h1
      · exact hb c hcbs

/-- Insertion sort sorts, for a total and transitive boolean relation. -/
theorem pairwise_isort {α : Type} (le : α → α → Bool)
    (htot : ∀ a b, le a b = true ∨ le b a = true)
    (htrans : ∀ a b c, le a b = true → le b c = true → le a c = true)
    (l : List α) :
    (isort le l).Pairwise (fun x y => le x y = true) := by
  induction l with
  | nil => simp [isort]
  | cons a as ih => exact pairwise_ordIns le htot htrans a (isort le as) ih

/-- Inserting an element of a tie class puts it in front of the class:
elements it cannot precede are outside the class. -/
theorem filter_ordIns_of_pos {α : Type} (le : α → α → Bool) (pr : α → Bool)
    (a : α) (l : List α) (hpa : pr a = true)
    (hskip : ∀ b, le a b = false → pr b = false) :
    (ordIns le a l).filter pr = a :: l.filter pr := by
  induction l with
  | nil => simp [ordIns, hpa]
  | cons b bs ih =>
    rw [ordIns]
    by_cases hab : le a b = true
    · rw [if_pos hab]
      rw [List.filter_cons_of_pos hpa]
    · rw [if_neg hab]
      have hpb : pr b = false := hskip b (Bool.eq_false_iff.2 hab)
      rw [List.filter_cons_of_neg (by simp [hpb]), ih,
        List.filter_cons_of_neg (by simp [hpb])]

/-- Inserting an element outside a class leaves the class's subsequence
unchanged. -/
theorem filter_ordIns_of_neg {α : Type} (le : α → α → Bool) (pr : α → Bool)
    (a : α) (l : List α) (hpa : pr a = false) :
    (ordIns le a l).filter pr = l.filter pr := by
  induction l with
  | nil => simp [ordIns, hpa]
  | cons b bs ih =>
    rw [ordIns]
    by_cases hab : le a b = true
    · rw [if_pos hab, List.filter_cons_of_neg (by simp [hpa])]
    · rw [if_neg hab]
      by_cases hpb : pr b = true
      · rw [List.filter_cons_of_pos hpb, ih, List.filter_cons_of_pos hpb]
      · rw [List.filter_cons_of_neg (by simpa using hpb), ih,
          List.filter_cons_of_neg (by simpa using hpb)]

/-- Stability of insertion sort: the subsequence of any tie class (a set
of elements any of which may precede any other, and which no outside
element interleaves with under `le`) is preserved. -/
theorem filter_isort {α : Type} (le : α → α → Bool) (pr : α → Bool)
    (hcl : ∀ a, pr a = true → ∀ b, le a b = false → pr b = false)
    (l : List α) :
    (isort le l).filter pr = l.filter pr := by
  induction l with
  | nil => rfl
  | cons a as ih =>
    rw [isort]
    by_cases hpa : pr a = true
    · rw [filter_ordIns_of_pos le pr a (isort le as) hpa (hcl a hpa), ih,
        List.filter_cons_of_pos hpa]
    · rw [filter_ordIns_of_neg le pr a (isort le as) (Bool.eq_false_iff.2 hpa),
        ih, List.filter_cons_of_neg (by simpa using hpa)]

/-- The table sorter never changes the column header. -/
theorem rank_report_context_header (parse : String → Rat) (df : DF)
    (w r : Option String) :
    (rank_report_context parse df w r).header = df.header := by
  dsimp only [rank_report_context]
  split <;> rfl

/-- The table sorter permutes the rows. -/
theorem rank_report_context_rows_perm (parse : String → Rat) (df : DF)
    (w r : Option String) :
    (rank_report_context parse df w r).rows.Perm df.rows := by
  dsimp only [rank_report_context]
  split
  · exact .refl _
  · exact (List.reverse_perm _).trans (isort_perm _ _)
  · exact isort_perm _ _

/-- Unfolding of the single-key descending relation. -/
theorem descLe1_iff (parse : String → Rat) (hdr : List String) (c : String)
    (a b : List String) :
    descLe1 parse hdr c a b = true ↔
      colKey parse hdr c b ≤ colKey parse hdr c a := by
  simp [descLe1]

/-- Unfolding of the two-key descending lexicographic relation. -/
theorem descLe2_iff (parse : String → Rat) (hdr : List String)
    (c₁ c₂ : String) (a b : List String) :
    descLe2 parse hdr c₁ c₂ a b = true ↔
      colKey parse hdr c₁ b < colKey parse hdr c₁ a ∨
        (colKey parse hdr c₁ b = colKey parse hdr c₁ a ∧
          colKey parse hdr c₂ b ≤ colKey parse hdr c₂ a) := by
  simp [descLe2]

/-- The two-key descending relation is total. -/
theorem descLe2_total (parse : String → Rat) (hdr : List String)
    (c₁ c₂ : String) (a b : List String) :
    descLe2 parse hdr c₁ c₂ a b = true ∨ descLe2 parse hdr c₁ c₂ b a = true := by
  rw [descLe2_iff, descLe2_iff]
  rcases lt_trichotomy (colKey parse hdr c₁ a) (colKey parse hdr c₁ b) with h | h | h
  · exact Or.inr (Or.inl h)
  · rcases le_total (colKey parse hdr c₂ a) (colKey parse hdr c₂ b) with h2 | h2
    · exact Or.inr (Or.inr ⟨h, h2⟩)
    · exact Or.inl (Or.inr ⟨h.symm, h2⟩)
  · exact Or.inl (Or.inl h)

/-- The two-key descending relation is transitive. -/
theorem descLe2_trans (parse : String → Rat) (hdr : List String)
    (c₁ c₂ : String) (a b c : List String) :
    descLe2 parse hdr c₁ c₂ a b = true → descLe2 parse hdr c₁ c₂ b c = true →
      descLe2 parse hdr c₁ c₂ a c = true := by
  rw [descLe2_iff, descLe2_iff, descLe2_iff]
  rintro (h1 | ⟨h1e, h1le⟩) (h2 | ⟨h2e, h2le⟩)
  · exact Or.inl (h2.trans h1)
  · exact Or.inl (h2e.symm ▸ h1)
  · exact Or.inl (h1e ▸ h2)
  · exact Or.inr ⟨h2e.trans h1e, h2le.trans h1le⟩

/-- Reduction of the table sorter when both sort columns are given. -/
theorem rank_report_context_two (parse : String → Rat) (df : DF)
    (w r : String) (hw : w ≠ "") (hr : r ≠ "") :
    rank_report_context parse df (some w) (some r) =
      { df with rows := isort (descLe2 parse df.header w r) df.rows } := by
  simp [rank_report_context, pyStrTruthy, hw, hr, descLe2]

/-- Reduction of the table sorter when only the weight column is given. -/
theorem rank_report_context_weight_only (parse : String → Rat) (df : DF)
    (w : String) (hw : w ≠ "") :
    rank_report_context parse df (some w) none =
      { df with
        rows := (isort (fun a b =>
          decide (colKey parse df.header w a ≤ colKey parse df.header w b))
          df.rows).reverse } := by
  simp [rank_report_context, pyStrTruthy, hw]

/-- Reduction of the table sorter when only the rank column is given. -/
theorem rank_report_context_rank_only (parse : String → Rat) (df : DF)
    (r : String) (hr : r ≠ "") :
    rank_report_context parse df none (some r) =
      { df with
        rows := (isort (fun a b =>
          decide (colKey parse df.header r a ≤ colKey parse df.header r b))
          df.rows).reverse } := by
  simp [rank_report_context, pyStrTruthy, hr]

/-- The descending single-column properties shared by the two one-column
configurations of the table sorter: the rows are permuted, ordered
descending by the parsed key column, and each tie class comes out in
reversed accumulation order. -/
theorem single_column_sort_spec (parse : String → Rat) (hdr : List String)
    (c : String) (rows : List (List String)) (q : Rat) :
    (((isort (fun a b => decide (colKey parse hdr c a ≤ colKey parse hdr c b))
        rows).reverse).Perm rows ∧
      ((isort (fun a b => decide (colKey parse hdr c a ≤ colKey parse hdr c b))
        rows).reverse).Pairwise (fun a b => descLe1 parse hdr c a b = true)) ∧
      ((isort (fun a b => decide (colKey parse hdr c a ≤ colKey parse hdr c b))
        rows).reverse).filter (fun row => decide (colKey parse hdr c row = q)) =
        (rows.filter (fun row => decide (colKey parse hdr c row = q))).reverse := by
  refine ⟨⟨(List.reverse_perm _).trans (isort_perm _ _), ?_⟩, ?_⟩
  · rw [List.pairwise_reverse]
    have := pairwise_isort
      (fun a b => decide (colKey parse hdr c a ≤ colKey parse hdr c b))
      (fun a b => by
        rcases le_total (colKey parse hdr c a) (colKey parse hdr c b) with h | h
        · exact Or.inl (by simpa using h)
        · exact Or.inr (by simpa using h))
      (fun a b d hab hbd => by
        simp only [decide_eq_true_eq] at hab hbd ⊢
        exact hab.trans hbd) rows
    refine this.imp ?_
    intro a b hab
    simp only [decide_eq_true_eq] at hab
    simp [descLe1, hab]
  · rw [List.filter_reverse]
    congr 1
    refine filter_isort _ _ ?_ rows
    intro a hpa b hab
    simp only [decide_eq_true_eq] at hpa
    simp only [decide_eq_false_iff_not, not_le] at hab
    simp only [decide_eq_false_iff_not]
    intro hqb
    rw [hqb, hpa] at hab
    exact lt_irrefl _ hab

/-- C5 counterexample: with a single sort column (the weight column, the
rank column not being included) and two rows whose weight cells are equal,
the sorter reverses the two tied rows instead of preserving their
accumulation order: `sort_values` with one sort key computes an ascending
argsort and then reverses it. -/
theorem C5_counterexample :
    rank_report_context (fun s => if s = "2" then (2 : Rat) else 0)
      ⟨["id", "title", "w", "summary"],
        [["1", "a", "2", "s"], ["2", "b", "2", "s"]]⟩ (some "w") none =
      ⟨["id", "title", "w", "summary"],
        [["2", "b", "2", "s"], ["1", "a", "2", "s"]]⟩ ∧
    (["1", "a", "2", "s"] : List String) ≠ ["2", "b", "2", "s"] := by
  refine ⟨by decide, by decide⟩

/-- C5 as amended: with no sort column the accumulation order is kept; with
both weight and rank columns the rows are sorted descending
lexicographically by the parsed keys and fully tied rows keep their
accumulation order (pandas sorts several keys with a stable lexicographic
sort); with exactly one sort column the rows are sorted descending by the
parsed key but tied rows appear in reversed accumulation order (pandas
reverses an ascending argsort). -/
theorem C5_amended (parse : String → Rat) (df : DF) (w r : String)
    (hw : w ≠ "") (hr : r ≠ "") (q₁ q₂ : Rat) :
    rank_report_context parse df none none = df ∧
    ((rank_report_context parse df (some w) (some r)).rows.Perm df.rows ∧
      (rank_report_context parse df (some w) (some r)).rows.Pairwise
        (fun a b => descLe2 parse df.header w r a b = true) ∧
      (rank_report_context parse df (some w) (some r)).rows.filter
          (fun row => decide (colKey parse df.header w row = q₁) &&
            decide (colKey parse df.header r row = q₂)) =
        df.rows.filter
          (fun row => decide (colKey parse df.header w row = q₁) &&
            decide (colKey parse df.header r row = q₂))) ∧
    ((rank_report_context parse df (some w) none).rows.Perm df.rows ∧
      (rank_report_context parse df (some w) none).rows.Pairwise
        (fun a b => descLe1 parse df.header w a b = true) ∧
      (rank_report_context parse df (some w) none).rows.filter
          (fun row => decide (colKey parse df.header w row = q₁)) =
        (df.rows.filter
          (fun row => decide (colKey parse df.header w row = q₁))).reverse) ∧
    ((rank_report_context parse df none (some r)).rows.Perm df.rows ∧
      (rank_report_context parse df none (some r)).rows.Pairwise
        (fun a b => descLe1 parse df.header r a b = true) ∧
      (rank_report_context parse df none (some r)).rows.filter
          (fun row => decide (colKey parse df.header r row = q₂)) =
        (df.rows.filter
          (fun row => decide (colKey parse df.header r row = q₂))).reverse) := by
  refine ⟨rfl, ?_, ?_, ?_⟩
  · rw [rank_report_context_two parse df w r hw hr]
    refine ⟨isort_perm _ _, pairwise_isort _ (descLe2_total parse df.header w r)
      (descLe2_trans parse df.header w r) df.rows, ?_⟩
    refine filter_isort _ _ ?_ df.rows
    intro a hpa b hab
    simp only [Bool.and_eq_true, decide_eq_true_eq] at hpa
    rcases hpa with ⟨hw1, hr1⟩
    rw [Bool.eq_false_iff]
    intro hpb
    simp only [Bool.and_eq_true, decide_eq_true_eq] at hpb
    rcases hpb with ⟨hw2, hr2⟩
    have hle : descLe2 parse df.header w r a b = true := by
      rw [descLe2_iff]
      exact Or.inr ⟨by rw [hw2, hw1], le_of_eq (by rw [hr2, hr1])⟩
    rw [hab] at hle
    exact Bool.false_ne_true hle
  · rw [rank_report_context_weight_only parse df w hw]
    obtain ⟨⟨hperm, hpair⟩, hfil⟩ :=
      single_column_sort_spec parse df.header w df.rows q₁
    exact ⟨hperm, hpair, hfil⟩
  · rw [rank_report_context_rank_only parse df r hr]
    obtain ⟨⟨hperm, hpair⟩, hfil⟩ :=
      single_column_sort_spec parse df.header r df.rows q₂
    exact ⟨hperm, hpair, hfil⟩

/-- C5 witness: the amended sorter characterization applied at a concrete
table with nonempty column names; its first conjunct is the no-sort-column
identity. -/
theorem C5_amended_witness :
    ("w" : String) ≠ "" ∧ ("rank" : String) ≠ "" ∧
    rank_report_context (fun _ => (0 : Rat))
      ⟨["id", "title", "w", "summary"], [["1", "a", "2", "s"]]⟩ none none =
      ⟨["id", "title", "w", "summary"], [["1", "a", "2", "s"]]⟩ :=
  ⟨by decide, by decide,
    (C5_amended (fun _ => 0)
      ⟨["id", "title", "w", "summary"], [["1", "a", "2", "s"]]⟩ "w" "rank"
      (by decide) (by decide) 0 0).1⟩

/-- The token-accumulation skeleton of the loop (lines 126-129 and
166-169): starting from the current token counter, does the greedy
accumulation of the given reports' row texts ever exceed the budget? -/
def overflows (p : Params) (attribute_cols : List String) :
    Nat → List CommunityReport → Bool
  | _, [] => false
  | cur, r :: rs =>
    if cur + p.tc (rowText p (report_row p attribute_cols r)) > p.max_tokens
    then true
    else overflows p attribute_cols
      (cur + p.tc (rowText p (report_row p attribute_cols r))) rs

/-- Unfolding of the loop at an overflowing report under `single_batch`:
the current batch is closed and returned at once. -/
theorem batchLoop_cons_overflow_single (p : Params)
    (entities : Option (List Entity)) (acols header : List String)
    (r : CommunityReport) (rs : List CommunityReport) (st : LoopState)
    (hov : st.current_tokens + p.tc (rowText p (report_row p acols r)) >
      p.max_tokens)
    (hsb : p.single_batch = true) :
    batchLoop p entities acols header (r :: rs) st =
      .early (renderDF p.column_delimiter (close_batch p entities st))
        (close_batch p entities st) := by
  simp [batchLoop, hov, hsb]

/-- Unfolding of the loop at a fitting report: the row is appended to the
current batch and the loop continues. -/
theorem batchLoop_cons_no_overflow (p : Params)
    (entities : Option (List Entity)) (acols header : List String)
    (r : CommunityReport) (rs : List CommunityReport) (st : LoopState)
    (hov : ¬ st.current_tokens + p.tc (rowText p (report_row p acols r)) >
      p.max_tokens) :
    batchLoop p entities acols header (r :: rs) st =
      batchLoop p entities acols header rs
        { st with
          current_context_text :=
            st.current_context_text ++ rowText p (report_row p acols r)
          current_tokens :=
            st.current_tokens + p.tc (rowText p (report_row p acols r))
          current_context_records :=
            st.current_context_records ++ [report_row p acols r] } := by
  simp [batchLoop, hov]

/-- Under `single_batch = true` the loop returns early exactly when the
greedy token accumulation overflows the budget; when it never does, the
loop completes without ever touching the batch lists. -/
theorem batchLoop_single_spec (p : Params) (entities : Option (List Entity))
    (acols header : List String) (hsb : p.single_batch = true) :
    ∀ (reports : List CommunityReport) (st : LoopState),
      (overflows p acols st.current_tokens reports = true →
        ∃ t df, batchLoop p entities acols header reports st = .early t df) ∧
      (overflows p acols st.current_tokens reports = false →
        ∃ st', batchLoop p entities acols header reports st = .done st' ∧
          st'.all_context_text = st.all_context_text) := by
  intro reports
  induction reports with
  | nil =>
    intro st
    constructor
    · intro h
      exact absurd h (by simp [overflows])
    · intro _
      exact ⟨st, rfl, rfl⟩
  | cons r rs ih =>
    intro st
    constructor
    · intro hov
      by_cases hc : st.current_tokens +
          p.tc (rowText p (report_row p acols r)) > p.max_tokens
      · exact ⟨_, _,
          batchLoop_cons_overflow_single p entities acols header r rs st hc hsb⟩
      · rw [overflows, if_neg hc] at hov
        rw [batchLoop_cons_no_overflow p entities acols header r rs st hc]
        exact (ih _).1 hov
    · intro hov
      by_cases hc : st.current_tokens +
          p.tc (rowText p (report_row p acols r)) > p.max_tokens
      · rw [overflows, if_pos hc] at hov
        exact absurd hov (by simp)
      · rw [overflows, if_neg hc] at hov
        rw [batchLoop_cons_no_overflow p entities acols header r rs st hc]
        obtain ⟨st', h1, h2⟩ := (ih
          { st with
            current_context_text :=
              st.current_context_text ++ rowText p (report_row p acols r)
            current_tokens :=
              st.current_tokens + p.tc (rowText p (report_row p acols r))
            current_context_records :=
              st.current_context_records ++ [report_row p acols r] }).2 hov
        exact ⟨st', h1, h2.trans rfl⟩

/-- C3 as amended: with `single_batch = true` and a nonempty filtered
report set, the context text member is a single string exactly in the
overflow case, and a one-element list otherwise: when the greedy token
accumulation over the selected reports exceeds the budget at some report,
the builder returns the early single-string result; when the budget is
never exceeded, it falls through to the multi-batch return with exactly
one (never-closed) batch, a one-element list of strings. -/
theorem C3_amended (p : Params) (entities : Option (List Entity))
    (reports reports' : List CommunityReport) (r : CommunityReport)
    (rs : List CommunityReport) (res : ContextText × List (String × DF))
    (hsb : p.single_batch = true)
    (hw : weight_step p entities reports = some reports')
    (hsel : select_reports p.min_community_rank reports' = r :: rs)
    (hres : build_community_context p reports entities = some res) :
    (overflows p
        (first_attribute_cols p
          (if p.shuffle_data then p.shuffle (r :: rs) else r :: rs))
        (p.tc (freshText p
          (table_header p
            (first_attribute_cols p
              (if p.shuffle_data then p.shuffle (r :: rs) else r :: rs)))))
        (if p.shuffle_data then p.shuffle (r :: rs) else r :: rs) = true →
      ∃ s, res.1 = .single s) ∧
    (overflows p
        (first_attribute_cols p
          (if p.shuffle_data then p.shuffle (r :: rs) else r :: rs))
        (p.tc (freshText p
          (table_header p
            (first_attribute_cols p
              (if p.shuffle_data then p.shuffle (r :: rs) else r :: rs)))))
        (if p.shuffle_data then p.shuffle (r :: rs) else r :: rs) = false →
      ∃ t, res.1 = .multiple [t]) := by
  rw [build_community_context] at hres
  simp only [hw] at hres
  rw [hsel] at hres
  dsimp only at hres
  have hspec := batchLoop_single_spec p entities
    (first_attribute_cols p
      (if p.shuffle_data then p.shuffle (r :: rs) else r :: rs))
    (table_header p
      (first_attribute_cols p
        (if p.shuffle_data then p.shuffle (r :: rs) else r :: rs)))
    hsb
    (if p.shuffle_data then p.shuffle (r :: rs) else r :: rs)
    (initState p
      (table_header p
        (first_attribute_cols p
          (if p.shuffle_data then p.shuffle (r :: rs) else r :: rs))))
  constructor
  · intro hov
    obtain ⟨t, df, heq⟩ := hspec.1 hov
    rw [heq] at hres
    have h2 : some ((ContextText.single t,
        [(pyLower p.context_name, df)]) :
          ContextText × List (String × DF)) = some res := hres
    exact ⟨t, by rw [← Option.some.inj h2]⟩
  · intro hov
    obtain ⟨st', heq, hall⟩ := hspec.2 hov
    rw [heq] at hres
    have hall2 : st'.all_context_text = [] := hall.trans rfl
    have h2 : some ((ContextText.multiple (finalize p entities st').1,
        [(pyLower p.context_name, concatDFs (finalize p entities st').2)]) :
          ContextText × List (String × DF)) = some res := hres
    have hnot : st'.current_context_text ∉ st'.all_context_text := by
      rw [hall2]
      exact List.not_mem_nil _
    have hfin1 : (finalize p entities st').1 =
        [renderDF p.column_delimiter (close_batch p entities st')] := by
      unfold finalize
      rw [if_neg hnot, hall2]
      rfl
    refine ⟨renderDF p.column_delimiter (close_batch p entities st'), ?_⟩
    rw [← Option.some.inj h2]
    dsimp only
    rw [hfin1]

/-- C3 witness: two concrete single-batch runs — one whose second report
overflows the exactly-filled budget and yields a single string, and one
whose sole report never overflows and yields a one-element list. -/
theorem C3_amended_witness :
    (weight_step { pFix with single_batch := true } none [repA, repB] =
        some [repA, repB] ∧
      select_reports pFix.min_community_rank [repA, repB] = [repA, repB] ∧
      build_community_context { pFix with single_batch := true }
          [repA, repB] none =
        some (.single "id|title|summary\n1|a|s\n",
          [("reports", ⟨["id", "title", "summary"], [["1", "a", "s"]]⟩)]) ∧
      ∃ s, (ContextText.single "id|title|summary\n1|a|s\n",
        [("reports",
          (⟨["id", "title", "summary"], [["1", "a", "s"]]⟩ : DF))]).1 =
          .single s) ∧
    (build_community_context
          { pFix with single_batch := true, max_tokens := 100 } [repA] none =
        some (.multiple ["id|title|summary\n1|a|s\n"],
          [("reports", ⟨["id", "title", "summary"], [["1", "a", "s"]]⟩)]) ∧
      ∃ t, (ContextText.multiple ["id|title|summary\n1|a|s\n"],
        [("reports",
          (⟨["id", "title", "summary"], [["1", "a", "s"]]⟩ : DF))]).1 =
          .multiple [t]) :=
  ⟨⟨by decide, by decide, by decide,
    (C3_amended { pFix with single_batch := true } none [repA, repB]
      [repA, repB] repA [repB] _ rfl (by decide) (by decide) (by decide)).1
      (by decide)⟩,
   ⟨by decide,
    (C3_amended { pFix with single_batch := true, max_tokens := 100 } none
      [repA] [repA] repA [] _ rfl (by decide) (by decide) (by decide)).2
      (by decide)⟩⟩

/-- The trailing block keeps the batch lists unchanged when the current
raw text was already rendered. -/
theorem finalize_snd_of_mem (p : Params) (entities : Option (List Entity))
    (st : LoopState) (h : st.current_context_text ∈ st.all_context_text) :
    (finalize p entities st).2 = st.all_context_records := by
  unfold finalize
  rw [if_pos h]

/-- The trailing block appends one more closed batch when the current raw
text was not yet rendered. -/
theorem finalize_snd_of_not_mem (p : Params) (entities : Option (List Entity))
    (st : LoopState) (h : ¬ st.current_context_text ∈ st.all_context_text) :
    (finalize p entities st).2 =
      st.all_context_records ++ [close_batch p entities st] := by
  unfold finalize
  rw [if_neg h]

/-- The token count of all row texts of a batch table. -/
def sumRowTokens (p : Params) (df : DF) : Nat :=
  (df.rows.map (fun row => p.tc (rowText p row))).sum

/-- The budget shape of a closed batch: either it holds no report row at
all, or the tokens of its full leading text (banner plus header line)
plus the tokens of its row texts fit the budget. -/
def GoodBatch (p : Params) (header : List String) (df : DF) : Prop :=
  df.rows = [] ∨
    p.tc (freshText p header) + sumRowTokens p df ≤ p.max_tokens

/-- The loop-state invariant behind the token budget: the current records
are the header plus the accumulated rows, the current token counter is
exactly the fresh-text tokens plus the accumulated row-text tokens and
fits the budget as soon as a row was accepted, and every closed batch so
far is budget-shaped. -/
def stInv (p : Params) (header : List String) (st : LoopState) : Prop :=
  (∃ rows, st.current_context_records = header :: rows ∧
    st.current_tokens = p.tc (freshText p header) +
      (rows.map (fun row => p.tc (rowText p row))).sum ∧
    (rows ≠ [] → st.current_tokens ≤ p.max_tokens)) ∧
  ∀ df ∈ st.all_context_records, GoodBatch p header df

/-- Closing a batch from an invariant state yields a budget-shaped batch:
the sorter only permutes the rows, so their token sum is the accumulated
one. -/
theorem close_batch_good (p : Params) (entities : Option (List Entity))
    (header : List String) (st : LoopState)
    (hinv : ∃ rows, st.current_context_records = header :: rows ∧
      st.current_tokens = p.tc (freshText p header) +
        (rows.map (fun row => p.tc (rowText p row))).sum ∧
      (rows ≠ [] → st.current_tokens ≤ p.max_tokens)) :
    GoodBatch p header (close_batch p entities st) := by
  obtain ⟨rows, hrec, htok, hb⟩ := hinv
  rw [close_batch, hrec]
  cases rows with
  | nil => simp [GoodBatch, emptyDF]
  | cons row0 rest =>
    rw [if_pos (by simp)]
    refine Or.inr ?_
    have hperm :=
      (rank_report_context_rows_perm p.parse
        { header := header, rows := row0 :: rest }
        (weight_col p entities) (rank_col p)).map
        (fun row => p.tc (rowText p row))
    have hsum : sumRowTokens p
        (convert_report_context_to_df p.parse ((header :: row0 :: rest).drop 1)
          ((header :: row0 :: rest).headD []) (weight_col p entities)
          (rank_col p)) =
        ((row0 :: rest).map (fun row => p.tc (rowText p row))).sum :=
      hperm.sum_eq
    rw [hsum, ← htok]
    exact hb (by simp)

/-- The loop preserves the budget invariant, and an early-returned batch
is budget-shaped. -/
theorem batchLoop_good (p : Params) (entities : Option (List Entity))
    (acols header : List String) :
    ∀ (reports : List CommunityReport) (st : LoopState),
      stInv p header st →
      ∀ out, batchLoop p entities acols header reports st = out →
        (∀ t df, out = .early t df → GoodBatch p header df) ∧
        (∀ st', out = .done st' → stInv p header st') := by
  intro reports
  induction reports with
  | nil =>
    intro st hinv out hout
    cases hout
    refine ⟨?_, ?_⟩
    · intro t df h
      exact LoopOut.noConfusion h
    · intro st' h
      cases h
      exact hinv
  | cons r rs ih =>
    intro st hinv out hout
    simp only [batchLoop] at hout
    split at hout
    · -- overflow
      rename_i hov
      split at hout
      · -- single batch: early return of the closed batch
        cases hout
        refine ⟨?_, ?_⟩
        · intro t df h
          have h2 := h
          simp only [LoopOut.early.injEq] at h2
          rw [← h2.2]
          exact close_batch_good p entities header st hinv.1
        · intro st' h
          exact LoopOut.noConfusion h
      · -- multi batch: a fresh batch state, closed batch recorded
        refine ih _ ?_ out hout
        refine ⟨⟨[], rfl, rfl, by simp⟩, ?_⟩
        intro df hdf
        rcases List.mem_append.1 hdf with hold | hnew
        · exact hinv.2 df hold
        · rw [List.mem_singleton.1 hnew]
          exact close_batch_good p entities header st hinv.1
    · -- no overflow: the row is accepted
      rename_i hov
      obtain ⟨⟨rows, hrec, htok, _⟩, hall⟩ := hinv
      refine ih _ ?_ out hout
      refine ⟨⟨rows ++ [report_row p acols r], ?_, ?_, ?_⟩, hall⟩
      · simp [hrec]
      · simp only [htok, List.map_append, List.sum_append]
        simp [Nat.add_assoc]
      · intro _
        simpa using Nat.le_of_not_lt hov

/-- The initial loop state satisfies the budget invariant. -/
theorem initState_inv (p : Params) (header : List String) :
    stInv p header (initState p header) := by
  refine ⟨⟨[], rfl, rfl, by simp⟩, ?_⟩
  intro df hdf
  exact absurd hdf (by simp [initState])

/-- C6 counterexample: with a 10-token budget and a 35-token fresh batch
text, the accumulator closes two batches that contain no report at all
(so neither is "a batch containing a single report whose row alone
exceeds the budget"), yet the 17-token header line alone exceeds the
budget, so the claimed bound fails for them. -/
theorem C6_counterexample :
    outBatches { pFix with max_tokens := 10 } none []
        ["id", "title", "summary"] [repA] = [emptyDF, emptyDF] ∧
    emptyDF.rows = [] ∧
    ({ pFix with max_tokens := 10 } : Params).tc
        (headerLine { pFix with max_tokens := 10 } ["id", "title", "summary"]) +
      sumRowTokens { pFix with max_tokens := 10 } emptyDF = 17 ∧
    ¬(17 ≤ ({ pFix with max_tokens := 10 } : Params).max_tokens) := by
  refine ⟨by decide, rfl, by decide, by decide⟩

/-- C6 as amended: for a token counter that never counts a suffix above
the whole string, every closed batch that holds at least one report row
fits the budget: header line tokens plus row-text tokens are at most
`max_tokens`.  (Only a batch with no rows can exceed the budget, when the
banner and header alone do; and no batch ever holds an oversized report
row, because the accumulator drops any report that does not fit.) -/
theorem C6_amended (p : Params) (entities : Option (List Entity))
    (acols header : List String) (selected : List CommunityReport)
    (htc : ∀ s t : String, p.tc t ≤ p.tc (s ++ t)) :
    ∀ df ∈ outBatches p entities acols header selected,
      df.rows ≠ [] →
      p.tc (headerLine p header) + sumRowTokens p df ≤ p.max_tokens := by
  intro df hdf hne
  have hfresh : p.tc (headerLine p header) ≤ p.tc (freshText p header) :=
    htc (bannerText p) (headerLine p header)
  have hgood : GoodBatch p header df := by
    rw [outBatches] at hdf
    revert hdf
    cases hloop : batchLoop p entities acols header selected
        (initState p header) with
    | early t df0 =>
      intro hdf
      have hg := (batchLoop_good p entities acols header selected
        (initState p header) (initState_inv p header) _ hloop).1 t df0 rfl
      rw [List.mem_singleton.1 hdf]
      exact hg
    | done st =>
      intro hdf
      have hdf2 : df ∈ (finalize p entities st).2 := hdf
      have hinv := (batchLoop_good p entities acols header selected
        (initState p header) (initState_inv p header) _ hloop).2 st rfl
      by_cases hmem : st.current_context_text ∈ st.all_context_text
      · rw [finalize_snd_of_mem p entities st hmem] at hdf2
        exact hinv.2 df hdf2
      · rw [finalize_snd_of_not_mem p entities st hmem] at hdf2
        rcases List.mem_append.1 hdf2 with hold | hnew
        · exact hinv.2 df hold
        · rw [List.mem_singleton.1 hnew]
          exact close_batch_good p entities header st hinv.1
  rcases hgood with h | h
  · exact absurd h hne
  · exact le_trans (Nat.add_le_add_right hfresh _) h

/-- C6 witness: with the character-counting tokenizer (for which a suffix
never counts more than the whole string) a concrete run yields one batch
with one row, and its header-plus-rows token total fits the budget. -/
theorem C6_amended_witness :
    (∀ s t : String, pFix.tc t ≤ pFix.tc (s ++ t)) ∧
    (⟨["id", "title", "summary"], [["1", "a", "s"]]⟩ : DF) ∈
      outBatches pFix none [] ["id", "title", "summary"] [repA] ∧
    pFix.tc (headerLine pFix ["id", "title", "summary"]) +
        sumRowTokens pFix ⟨["id", "title", "summary"], [["1", "a", "s"]]⟩ ≤
      pFix.max_tokens := by
  have hlen : ∀ s t : String, pFix.tc t ≤ pFix.tc (s ++ t) := by
    intro s t
    show t.length ≤ (s ++ t).length
    rw [String.length_append]
    omega
  refine ⟨hlen, by decide, ?_⟩
  exact C6_amended pFix none [] ["id", "title", "summary"] [repA] hlen
    ⟨["id", "title", "summary"], [["1", "a", "s"]]⟩ (by decide) (by decide)

/-- Looking up the freshly inserted key. -/
theorem dictGet?_dictInsert_self {α : Type} (d : List (String × α))
    (k : String) (v : α) : dictGet? (dictInsert d k v) k = some v := by
  induction d with
  | nil => simp [dictInsert, dictGet?]
  | cons p rest ih =>
    rw [dictInsert]
    by_cases h : p.1 = k
    · rw [if_pos h, dictGet?, if_pos rfl]
    · rw [if_neg h, dictGet?, if_neg h, ih]

/-- Looking up a different key after an insertion. -/
theorem dictGet?_dictInsert_ne {α : Type} (d : List (String × α))
    (k k' : String) (v : α) (h : k' ≠ k) :
    dictGet? (dictInsert d k v) k' = dictGet? d k' := by
  induction d with
  | nil => simp [dictInsert, dictGet?, Ne.symm h]
  | cons p rest ih =>
    rw [dictInsert]
    by_cases hp : p.1 = k
    · rw [if_pos hp, dictGet?, if_neg (by rw [hp] at hp ⊢; exact fun hk => h hk.symm),
        dictGet?, hp, if_neg (fun hk => h hk.symm)]
    · rw [if_neg hp, dictGet?, dictGet?]
      by_cases hq : p.1 = k'
      · rw [if_pos hq, if_pos hq]
      · rw [if_neg hq, if_neg hq, ih]

/-- Membership in a community's entry after one entity's inner loop over
its community ids: the entry gains exactly the entity's text unit ids,
and only for the listed communities. -/
theorem mem_inner_fold (tus : List String) :
    ∀ (ids : List String) (d : List (String × List String)) (cid x : String),
      (x ∈ dictGetD
        (ids.foldl (fun u c => dictInsert u c (dictGetD u c [] ++ tus)) d)
        cid []) ↔
      x ∈ dictGetD d cid [] ∨ (cid ∈ ids ∧ x ∈ tus) := by
  intro ids
  induction ids with
  | nil => simp
  | cons c ids ih =>
    intro d cid x
    rw [List.foldl_cons, ih]
    by_cases hc : cid = c
    · subst hc
      rw [dictGetD, dictGet?_dictInsert_self]
      simp only [Option.getD_some, List.mem_append, List.mem_cons]
      tauto
    · rw [dictGetD, dictGet?_dictInsert_ne _ _ _ _ hc]
      rw [← dictGetD]
      simp only [List.mem_cons]
      tauto

/-- Membership in the community → text-unit dictionary built over a list
of entities, relative to a starting dictionary. -/
theorem mem_units_foldl :
    ∀ (es : List Entity) (d : List (String × List String)) (cid x : String),
      (x ∈ dictGetD
        (es.foldl (fun units e =>
          if e.community_ids.isEmpty then units
          else e.community_ids.foldl
            (fun u c => dictInsert u c (dictGetD u c [] ++ e.text_unit_ids))
            units) d)
        cid []) ↔
      x ∈ dictGetD d cid [] ∨
        ∃ e ∈ es, cid ∈ e.community_ids ∧ x ∈ e.text_unit_ids := by
  intro es
  induction es with
  | nil => simp
  | cons e es ih =>
    intro d cid x
    rw [List.foldl_cons, ih]
    by_cases he : e.community_ids.isEmpty
    · rw [if_pos he]
      have hni : cid ∉ e.community_ids := by
        rw [List.isEmpty_iff] at he
        simp [he]
      constructor
      · rintro (h | ⟨e', he', h2⟩)
        · exact Or.inl h
        · exact Or.inr ⟨e', List.mem_cons_of_mem e he', h2⟩
      · rintro (h | ⟨e', he', h2⟩)
        · exact Or.inl h
        · rcases List.mem_cons.1 he' with he2 | he2
          · exact absurd (he2 ▸ h2.1) hni
          · exact Or.inr ⟨e', he2, h2⟩
    · rw [if_neg he, mem_inner_fold]
      constructor
      · rintro ((h | h) | ⟨e', he', h2⟩)
        · exact Or.inl h
        · exact Or.inr ⟨e, List.mem_cons_self e es, h⟩
        · exact Or.inr ⟨e', List.mem_cons_of_mem e he', h2⟩
      · rintro (h | ⟨e', he', h2⟩)
        · exact Or.inl (Or.inl h)
        · rcases List.mem_cons.1 he' with he2 | he2
          · exact Or.inl (Or.inr (he2 ▸ h2))
          · exact Or.inr ⟨e', he2, h2⟩

/-- The number of distinct text unit ids the claim predicts for one
community: entities listing the community contribute their text unit ids,
deduplicated. -/
def specWeight (entities : List Entity) (cid : String) : Nat :=
  (((entities.filter (fun e => decide (cid ∈ e.community_ids))).flatMap
    (fun e => e.text_unit_ids)).dedup).length

/-- Two lists with the same elements have the same number of distinct
elements. -/
theorem numDistinct_congr {l₁ l₂ : List String}
    (h : ∀ x, x ∈ l₁ ↔ x ∈ l₂) : numDistinct l₁ = numDistinct l₂ := by
  unfold numDistinct
  rw [← List.card_toFinset, ← List.card_toFinset]
  congr 1
  ext x
  simp only [List.mem_toFinset]
  exact h x

/-- The dictionary the weight computer builds holds, for each community,
a list with exactly the claim's membership. -/
theorem community_text_units_spec (entities : List Entity) (cid : String) :
    numDistinct (dictGetD (community_text_units entities) cid []) =
      specWeight entities cid := by
  refine numDistinct_congr ?_
  intro x
  rw [community_text_units, mem_units_foldl]
  simp only [dictGetD, dictGet?, Option.getD_none, List.not_mem_nil, false_or]
  rw [List.mem_flatMap]
  constructor
  · rintro ⟨e, he, h1, h2⟩
    exact ⟨e, List.mem_filter.2 ⟨he, by simpa using h1⟩, h2⟩
  · rintro ⟨e, he, h2⟩
    rcases List.mem_filter.1 he with ⟨he', h1⟩
    exact ⟨e, he', by simpa using h1, h2⟩

/-- C8: for every reports/entities pair, the raw-weight pass (the counting
phase, before any normalization) sets each report's weight attribute to
the number of distinct text unit ids contributed by the entities that
list the report's community id — 0 when no entity references it, since
then no entity passes the filter and the union is empty. -/
theorem C8_raw_weights (entities : List Entity) (key : String)
    (reports : List CommunityReport) :
    ∃ l, compute_community_weights reports entities key false = some l ∧
      List.Forall₂ (fun r r' =>
        ∃ a, r'.attributes = some a ∧
          dictGet? a key =
            some (.num ((specWeight entities r.community_id : Nat) : Rat)))
        reports l ∧
      ∀ cid : String, (∀ e ∈ entities, cid ∉ e.community_ids) →
        specWeight entities cid = 0 := by
  refine ⟨reports.map (assign_weight (community_text_units entities) key),
    rfl, ?_, ?_⟩
  · induction reports with
    | nil => exact .nil
    | cons r rs ih =>
      refine List.Forall₂.cons ⟨_, rfl, ?_⟩ ih
      rw [dictGet?_dictInsert_self]
      rw [community_text_units_spec]
  · intro cid hnone
    unfold specWeight
    have hfil : entities.filter (fun e => decide (cid ∈ e.community_ids)) = [] := by
      rw [List.filter_eq_nil_iff]
      intro e he
      simpa using hnone e he
    rw [hfil]
    rfl

/-- The shape of every string the loop appends to the rendered batch
texts: the rendering of the empty table, or of a table carrying the batch
header, whose first column is always named `id`. -/
def IsRenderOf (p : Params) (hdrRest : List String) (t : String) : Prop :=
  t = renderDF p.column_delimiter emptyDF ∨
    ∃ rows, t = renderDF p.column_delimiter ⟨"id" :: hdrRest, rows⟩

/-- The loop-state invariant behind the trailing-batch behaviour: the
current records consist of the `id`-headed header plus rows, the current
raw text is the fresh banner-plus-header text while no row was accepted,
and every rendered batch text is a table rendering. -/
def stRenderInv (p : Params) (hdrRest : List String) (st : LoopState) : Prop :=
  (∃ rows, st.current_context_records = ("id" :: hdrRest) :: rows ∧
    (rows = [] →
      st.current_context_text = freshText p ("id" :: hdrRest))) ∧
  ∀ t ∈ st.all_context_text, IsRenderOf p hdrRest t

/-- A batch closed from records headed by the batch header renders as the
empty table or as a table with that header. -/
theorem close_batch_render (p : Params) (entities : Option (List Entity))
    (hdrRest : List String) (st : LoopState)
    (hrec : ∃ rows, st.current_context_records = ("id" :: hdrRest) :: rows) :
    IsRenderOf p hdrRest
      (renderDF p.column_delimiter (close_batch p entities st)) := by
  obtain ⟨rows, hrec⟩ := hrec
  rw [close_batch, hrec]
  cases rows with
  | nil =>
    rw [if_neg (by simp)]
    exact Or.inl rfl
  | cons row0 rest =>
    rw [if_pos (by simp)]
    refine Or.inr ⟨(convert_report_context_to_df p.parse
      ((("id" :: hdrRest) :: row0 :: rest).drop 1)
      ((("id" :: hdrRest) :: row0 :: rest).headD [])
      (weight_col p entities) (rank_col p)).rows, ?_⟩
    congr 1
    have hh := rank_report_context_header p.parse
      { header := "id" :: hdrRest, rows := row0 :: rest }
      (weight_col p entities) (rank_col p)
    cases hd : convert_report_context_to_df p.parse
        ((("id" :: hdrRest) :: row0 :: rest).drop 1)
        ((("id" :: hdrRest) :: row0 :: rest).headD [])
        (weight_col p entities) (rank_col p) with
    | mk h r =>
      have : h = "id" :: hdrRest := by
        have := congrArg DF.header hd
        dsimp at this
        rw [← this]
        exact hh
      rw [this]

/-- The loop preserves the render invariant on every completing run. -/
theorem batchLoop_renders (p : Params) (entities : Option (List Entity))
    (acols hdrRest : List String) :
    ∀ (reports : List CommunityReport) (st st' : LoopState),
      stRenderInv p hdrRest st →
      batchLoop p entities acols ("id" :: hdrRest) reports st = .done st' →
      stRenderInv p hdrRest st' := by
  intro reports
  induction reports with
  | nil =>
    intro st st' hinv h
    cases h
    exact hinv
  | cons r rs ih =>
    intro st st' hinv h
    simp only [batchLoop] at h
    split at h
    · -- overflow
      split at h
      · -- single batch: no completing run
        exact LoopOut.noConfusion h
      · -- fresh batch started, closed batch rendered and recorded
        refine ih _ st' ⟨⟨[], rfl, fun _ => rfl⟩, ?_⟩ h
        intro t ht
        rcases List.mem_append.1 ht with hold | hnew
        · exact hinv.2 t hold
        · rw [List.mem_singleton.1 hnew]
          exact close_batch_render p entities hdrRest st
            ⟨hinv.1.choose, hinv.1.choose_spec.1⟩
    · -- row accepted
      obtain ⟨⟨rows, hrec, _⟩, hall⟩ := hinv
      refine ih _ st' ?_ h
      refine ⟨⟨rows ++ [report_row p acols r], ?_, ?_⟩, hall⟩
      · simp [hrec]
      · intro hcontra
        exact absurd hcontra (by simp)

/-- The initial loop state satisfies the render invariant. -/
theorem initState_renderInv (p : Params) (hdrRest : List String) :
    stRenderInv p hdrRest (initState p ("id" :: hdrRest)) := by
  refine ⟨⟨[], rfl, fun _ => rfl⟩, ?_⟩
  intro t ht
  exact absurd ht (by simp [initState])

/-- The fresh batch text begins with the banner's first dash. -/
theorem freshText_head (p : Params) (header : List String) :
    (freshText p header).data.head? = some '-' := rfl

/-- The rendering of the empty table is the single newline. -/
theorem renderDF_emptyDF (delim : String) :
    renderDF delim emptyDF = "\n" := rfl

/-- The rendering of an `id`-headed table begins with the letter `i`. -/
theorem renderDF_id_head (delim : String) (hdrRest : List String)
    (rows : List (List String)) :
    (renderDF delim ⟨"id" :: hdrRest, rows⟩).data.head? = some 'i' := by
  cases hdrRest with
  | nil => rfl
  | cons c cs => rfl

/-- The fresh batch text is never one of the rendered batch texts: every
rendering starts with a newline or the letter `i`, the fresh text with a
dash. -/
theorem freshText_not_render (p : Params) (header hdrRest : List String)
    (t : String) (ht : IsRenderOf p hdrRest t) :
    freshText p header ≠ t := by
  intro h
  rcases ht with h1 | ⟨rows, h1⟩
  · have h3 : (freshText p header).data.head? =
        (renderDF p.column_delimiter emptyDF).data.head? := by
      rw [h.trans h1]
    rw [freshText_head, renderDF_emptyDF] at h3
    exact absurd (Option.some.inj h3) (by decide)
  · have h3 : (freshText p header).data.head? =
        (renderDF p.column_delimiter
          { header := "id" :: hdrRest, rows := rows }).data.head? := by
      rw [h.trans h1]
    rw [freshText_head, renderDF_id_head] at h3
    exact absurd (Option.some.inj h3) (by decide)

/-- C10: when a multi-batch run ends with the current batch holding only
the header (as after a final report triggered an overflow close), the
trailing block still appends one more batch: the raw fresh text is
compared against the rendered batch texts and can never equal one, so the
builder closes the header-only batch into the empty table, whose
rendering is the single newline. -/
theorem C10_trailing_empty_batch (p : Params)
    (entities : Option (List Entity)) (acols hdrRest : List String)
    (reports : List CommunityReport) (st' : LoopState)
    (hrun : batchLoop p entities acols ("id" :: hdrRest) reports
      (initState p ("id" :: hdrRest)) = .done st')
    (hcur : st'.current_context_records = [("id" :: hdrRest)]) :
    finalize p entities st' =
      (st'.all_context_text ++ [renderDF p.column_delimiter emptyDF],
        st'.all_context_records ++ [emptyDF]) ∧
    renderDF p.column_delimiter emptyDF = "\n" ∧
    emptyDF.rows = [] := by
  have hinv := batchLoop_renders p entities acols hdrRest reports
    (initState p ("id" :: hdrRest)) st' (initState_renderInv p hdrRest) hrun
  obtain ⟨⟨rows, hrec, htext⟩, hall⟩ := hinv
  have hrows : rows = [] := by
    have h2 : ("id" :: hdrRest) :: rows = [("id" :: hdrRest)] :=
      hrec.symm.trans hcur
    exact (List.cons.inj h2).2
  have htext' : st'.current_context_text = freshText p ("id" :: hdrRest) :=
    htext hrows
  have hnot : ¬ st'.current_context_text ∈ st'.all_context_text := by
    rw [htext']
    intro hmem
    exact freshText_not_render p ("id" :: hdrRest) hdrRest _
      (hall _ hmem) rfl
  refine ⟨?_, rfl, rfl⟩
  unfold finalize
  rw [if_neg hnot]
  have hclose : close_batch p entities st' = emptyDF := by
    rw [close_batch, hcur, if_neg (by simp)]
  rw [hclose]

/-- C10 witness: a concrete multi-batch run whose only report overflows
immediately, so the loop ends with a header-only batch; the trailing
block appends one more empty batch rendered as a newline. -/
theorem C10_trailing_empty_batch_witness :
    batchLoop { pFix with max_tokens := 10 } none []
        ["id", "title", "summary"] [repA]
        (initState { pFix with max_tokens := 10 } ["id", "title", "summary"]) =
      .done { all_context_text := ["\n"], all_context_records := [emptyDF],
              current_context_text :=
                freshText { pFix with max_tokens := 10 }
                  ["id", "title", "summary"],
              current_tokens := 35,
              current_context_records := [["id", "title", "summary"]] } ∧
    finalize { pFix with max_tokens := 10 } none
        { all_context_text := ["\n"], all_context_records := [emptyDF],
          current_context_text :=
            freshText { pFix with max_tokens := 10 } ["id", "title", "summary"],
          current_tokens := 35,
          current_context_records := [["id", "title", "summary"]] } =
      (["\n"] ++
          [renderDF ({ pFix with max_tokens := 10 } : Params).column_delimiter
            emptyDF],
        [emptyDF] ++ [emptyDF]) :=
  ⟨by decide,
    (C10_trailing_empty_batch { pFix with max_tokens := 10 } none []
      ["title", "summary"] [repA]
      { all_context_text := ["\n"], all_context_records := [emptyDF],
        current_context_text :=
          freshText { pFix with max_tokens := 10 } ["id", "title", "summary"],
        current_tokens := 35,
        current_context_records := [["id", "title", "summary"]] }
      (by decide) rfl).1⟩

/-- C8 witness: the raw-weight characterization applied to a concrete
report and entity pair. -/
theorem C8_raw_weights_witness :
    ∃ l, compute_community_weights [repA] [⟨["c1"], ["t1", "t2"]⟩] "w" false =
        some l ∧
      List.Forall₂ (fun r r' =>
        ∃ a, r'.attributes = some a ∧
          dictGet? a "w" =
            some (.num ((specWeight [⟨["c1"], ["t1", "t2"]⟩]
              r.community_id : Nat) : Rat)))
        [repA] l ∧
      ∀ cid : String, (∀ e ∈ [(⟨["c1"], ["t1", "t2"]⟩ : Entity)],
          cid ∉ e.community_ids) →
        specWeight [⟨["c1"], ["t1", "t2"]⟩] cid = 0 :=
  C8_raw_weights [⟨["c1"], ["t1", "t2"]⟩] "w" [repA]

/-- C4 witness: the amended filter characterization applied to a concrete
kept report. -/
theorem C4_amended_witness :
    repA ∈ select_reports 0 [repA] ↔
      repA ∈ [repA] ∧ ∃ v : Int, repA.rank = some v ∧ v ≠ 0 ∧ 0 ≤ v :=
  C4_amended 0 [repA] repA

/-- C9 witness: with no entities and a single unranked report the weight
step is skipped, the filtered set is empty, and the builder returns the
empty context pair. -/
theorem C9_amended_witness :
    weight_step pFix none [repNoRank] = some [repNoRank] ∧
    select_reports pFix.min_community_rank [repNoRank] = [] ∧
    build_community_context pFix [repNoRank] none = some (.multiple [], []) :=
  ⟨by decide, by decide, C9_amended pFix [repNoRank] [repNoRank] none (by decide) (by decide)⟩

end GraphRag
